import Mathlib

/-!
A shallow embedding of the `madn` game server (a Mensch-ärgere-dich-nicht
implementation). The definitions below are translated from the Rust sources
`src/server/src/player.rs`, `src/server/src/game.rs` and
`src/server/src/statemachine.rs`. Mutation is modelled by returning updated
values, websocket channel halves are modelled by opaque numeric identifiers,
and every message the server writes to a socket is collected in an output
list tagged with the recipient's player index. The random roll drawn from the
injected distribution is passed to `step` as an explicit argument.
-/

namespace Madn

/-- `Figure` from lib.rs / player.rs: a pawn is in the start area, on the
shared 40-cell track (counting its own steps), or in its 4-slot home row. -/
inductive Figure where
  | InStart : Figure
  | OnField : (moved : Nat) → Figure
  | InHouse : (pos : Nat) → Figure
  deriving DecidableEq, Repr

/-- `GamePlayer` from player.rs. The `send`/`recv` channel halves are
modelled as opaque numeric identifiers, the uuid rejoin code as a `Nat`. -/
structure GamePlayer where
  name : String
  send : Nat
  recv : Nat
  figures : List Figure
  done : Bool
  rejoin_code : Nat
  deriving DecidableEq, Repr

/-- The new-state computation inside `GamePlayer::move_figure`
(player.rs lines 104-153); the spec calls this pure part `apply_move`. -/
def apply_move (figure : Figure) (amount : Nat) : Figure :=
  match figure with
  | Figure.InStart => Figure.InStart
  | Figure.OnField moved =>
      let target := moved + amount
      if target < 40 then
        Figure.OnField target
      else
        let dif := target - 40
        if dif < 4 then Figure.InHouse dif
        else Figure.OnField moved
  | Figure.InHouse pos =>
      let target := pos + amount
      if target < 4 then Figure.InHouse target
      else Figure.InHouse pos

/-- Spec §3 range bounds for a figure: `OnTrack(steps: 0..40)`,
`AtHome(slot: 0..4)`; used to state the range part of claim C1. -/
def figure_wf (f : Figure) : Bool :=
  match f with
  | Figure.InStart => true
  | Figure.OnField moved => decide (moved < 40)
  | Figure.InHouse pos => decide (pos < 4)

/-- `GamePlayer::move_figure` (player.rs lines 101-163). Rust mutates the
player in place and returns `Option<&Figure>`; here the (possibly updated)
player is returned together with the optional new figure state. -/
def move_figure (p : GamePlayer) (index : Nat) (amount : Nat) :
    GamePlayer × Option Figure :=
  match p.figures.get? index with
  | none => (p, none)
  | some figure =>
      let n_state := apply_move figure amount
      if p.figures.any (fun f => decide (f = n_state)) then
        (p, none)
      else
        ({ p with figures := p.figures.set index n_state }, some n_state)

/-- `GamePlayer::check_done` (player.rs lines 165-174): when every figure is
in the house the `done` flag is set and `true` is returned, otherwise the
player is untouched and `false` is returned. -/
def check_done (p : GamePlayer) : GamePlayer × Bool :=
  if p.figures.all (fun f => match f with | Figure.InHouse _ => true | _ => false) then
    ({ p with done := true }, true)
  else
    (p, false)

/-- Predicate used by `has_figures_in_start` (player.rs line 60). -/
def is_instart (f : Figure) : Bool :=
  match f with
  | Figure.InStart => true
  | _ => false

/-- `GamePlayer::has_figures_in_start` (player.rs lines 59-61). -/
def has_figures_in_start (p : GamePlayer) : Bool :=
  p.figures.any is_instart

/-- `GamePlayer::has_figures_on_field` (player.rs lines 71-75): note that the
player.rs version counts both `OnField` and `InHouse` figures. -/
def has_figures_on_field (p : GamePlayer) : Bool :=
  p.figures.any (fun f =>
    match f with
    | Figure.OnField _ => true
    | Figure.InHouse _ => true
    | _ => false)

/-- `GamePlayer::is_done` (player.rs lines 78-80). -/
def is_done (p : GamePlayer) : Bool :=
  p.done

/-- `Game` from game.rs; the uuid and the rng are not part of the model (the
drawn roll value is instead an explicit argument of `step`). -/
structure Game where
  players : List GamePlayer
  next_player : Nat
  ranking : List Nat
  deriving DecidableEq, Repr

/-- A fresh player as built by `Game::new_with_rng` (game.rs lines 50-62). -/
def new_player (name : String) (tx : Nat) (rx : Nat) (code : Nat) : GamePlayer :=
  { name := name
    send := tx
    recv := rx
    figures := [Figure.InStart, Figure.InStart, Figure.InStart, Figure.InStart]
    done := false
    rejoin_code := code }

/-- `Game::new_with_rng` (game.rs lines 44-74): every player starts with four
figures in the start area, `done = false` and an empty ranking; the starting
player index is random and therefore a parameter here. -/
def new_game (ps : List (String × Nat × Nat × Nat)) (start : Nat) : Game :=
  { players := ps.map (fun q => new_player q.fst q.snd.fst q.snd.snd.fst q.snd.snd.snd)
    next_player := start
    ranking := [] }

/-- Map over a list together with the element index, starting at `k`; models
Rust's `iter().enumerate()` loops that rewrite elements in place. -/
def mapFromIdx (f : Nat → α → β) : Nat → List α → List β
  | _, [] => []
  | k, x :: xs => f k x :: mapFromIdx f (k + 1) xs

/-- First index whose element satisfies the predicate; models Rust's
`iter().enumerate().find(..)` / `find_map` index searches. -/
def find_index (p : α → Bool) : List α → Option Nat
  | [] => none
  | x :: xs => if p x then some 0 else (find_index p xs).map (fun i => i + 1)

/-- The board cells occupied by the mover's `OnField` figures, under the
coordinate mapping `(moved + player * 10) % 40` (game.rs lines 78-88). -/
def capture_targets (mover : GamePlayer) (player : Nat) : List Nat :=
  mover.figures.filterMap (fun f =>
    match f with
    | Figure.OnField moved => some ((moved + player * 10) % 40)
    | _ => none)

/-- The inner-loop body of `Game::check_move` (game.rs lines 98-108): a
figure of player `pindex` is reset to `InStart` when it stands on a board
cell occupied by the mover. -/
def capture_figure (cells : List Nat) (pindex : Nat) (fig : Figure) : Figure :=
  match fig with
  | Figure.OnField moved =>
      if cells.contains ((moved + pindex * 10) % 40) then Figure.InStart
      else fig
  | _ => fig

/-- The outer-loop body of `Game::check_move` (game.rs lines 92-109): the
filter `*i != player` skips the mover itself. -/
def capture_player (cells : List Nat) (player : Nat) (pindex : Nat) (pl : GamePlayer) :
    GamePlayer :=
  if pindex = player then pl
  else { pl with figures := pl.figures.map (capture_figure cells pindex) }

/-- `Game::check_move` (game.rs lines 77-110): every `OnField` figure of every
other player whose board cell coincides with one of the mover's occupied
cells is reset to `InStart`. The Rust code unwraps the mover lookup; an
out-of-range mover index (a panic in Rust) leaves the game unchanged here. -/
def check_move (g : Game) (player : Nat) : Game :=
  match g.players.get? player with
  | none => g
  | some mover =>
      { g with
        players :=
          mapFromIdx (capture_player (capture_targets mover player) player) 0 g.players }

/-- `Game::is_done` (game.rs lines 167-169). -/
def game_is_done (g : Game) : Bool :=
  g.players.all (fun p => p.done)

/-- `GameRequest` from lib.rs. -/
inductive GameRequest where
  | Roll : GameRequest
  | Move : (figure : Nat) → GameRequest
  deriving DecidableEq, Repr

/-- `GameResponse` from lib.rs (the rejoin-code message is not needed by the
modelled step function). -/
inductive GameResponse where
  | IndicatePlayer : (player : Nat) → (name : String) → (you : Bool) → GameResponse
  | State : List (String × List Figure) → GameResponse
  | Turn : GameResponse
  | Rolled : (value : Nat) → (can_move : Bool) → GameResponse
  | PlayerDone : (player : Nat) → GameResponse
  | GameDone : (ranking : List Nat) → GameResponse
  deriving DecidableEq, Repr

/-- `GameState` from statemachine.rs. -/
inductive GameState where
  | WaitingForReconnect : (prev_state : GameState) → GameState
  | StartTurn : (attempt : Nat) → GameState
  | Rolled : (value : Nat) → GameState
  | MoveToNextTurn : GameState
  | Done : GameState
  deriving DecidableEq, Repr

/-- The one event a `step` call consumes: either a request received on the
active player's socket (together with the roll value the injected
distribution would produce this step), or a rejoin message `(key, tx, rx)`
from the reconnect channel. In the source each state reads only its own
channel; an event of the kind a state never reads is modelled as a no-op. -/
inductive GameEvent where
  | Request : GameRequest → GameEvent
  | Rejoin : (key : Nat) → (tx : Nat) → (rx : Nat) → GameEvent
  deriving DecidableEq, Repr

/-- Result of one `step` call: the updated game, the next machine state
(`none` models the `Done` state returning `None`), and every message written
to a socket, tagged with the recipient's player index. -/
structure StepOut where
  game : Game
  next : Option GameState
  sent : List (Nat × GameResponse)
  deriving DecidableEq, Repr

/-- Replace player `i` of the game (models mutating through the borrow). -/
def set_player (g : Game) (i : Nat) (p : GamePlayer) : Game :=
  { g with players := g.players.set i p }

/-- The `State` snapshot message built by `Game::send_state`
(game.rs lines 127-140). -/
def state_snapshot (g : Game) : GameResponse :=
  GameResponse.State (g.players.map (fun p => (p.name, p.figures)))

/-- Send the same message to every player in order. -/
def broadcast (g : Game) (msg : GameResponse) : List (Nat × GameResponse) :=
  (List.range g.players.length).map (fun i => (i, msg))

/-- `Game::send_state`: broadcast the current snapshot. -/
def send_state (g : Game) : List (Nat × GameResponse) :=
  broadcast g (state_snapshot g)

/-- `Game::indicate_players` (game.rs lines 143-164). -/
def indicate_players (g : Game) : List (Nat × GameResponse) :=
  (List.range g.players.length).flatMap (fun i =>
    mapFromIdx (fun j q => (i, GameResponse.IndicatePlayer j q.name (decide (j = i)))) 0 g.players)

/-- The wrapping advance loop at statemachine.rs lines 303-309, run with
`fuel = players.length`: step the cursor forward, stopping at the first
player whose `done` flag is unset. -/
def advance_player (players : List GamePlayer) (cur : Nat) : Nat → Nat
  | 0 => cur
  | fuel + 1 =>
      let nxt := (cur + 1) % players.length
      match players.get? nxt with
      | some p => if p.done then advance_player players nxt fuel else nxt
      | none => nxt

/-- The start-jam search of statemachine.rs lines 169-176: the first figure
sitting on the player's own entry square while another figure is still in
the start area. `instart` is the precomputed `other_figures_instart`. -/
def jam_predicate (instart : Bool) (f : Figure) : Bool :=
  match f with
  | Figure.OnField moved => decide (moved = 0) && instart
  | _ => false

/-- The `GameState::StartTurn` branch of `step` (statemachine.rs lines
109-239), for the active player `cp`, after a `Roll` request was received
and `value` was drawn from the distribution. -/
def step_roll (g : Game) (cp : GamePlayer) (attempt : Nat) (value : Nat) : StepOut :=
  let other_figures_instart := has_figures_in_start cp
  let can_move := has_figures_on_field cp
    && !(decide (value = 6) && has_figures_in_start cp)
    && !(cp.figures.any (jam_predicate other_figures_instart))
  let sent0 := [(g.next_player, GameResponse.Turn),
                (g.next_player, GameResponse.Rolled value can_move)]
  match find_index (jam_predicate other_figures_instart) cp.figures with
  | some findex =>
      let cp1 := (move_figure cp findex value).fst
      let g1 := check_move (set_player g g.next_player cp1) g.next_player
      { game := g1
        next := some (if value = 6 then GameState.StartTurn 0 else GameState.MoveToNextTurn)
        sent := sent0 ++ send_state g1 }
  | none =>
      if value = 6 then
        match find_index is_instart cp.figures with
        | some index =>
            let cp1 := { cp with figures := cp.figures.set index (Figure.OnField 0) }
            let g1 := check_move (set_player g g.next_player cp1) g.next_player
            { game := g1
              next := some (GameState.StartTurn 0)
              sent := sent0 ++ send_state g1 }
        | none =>
            { game := g, next := some (GameState.Rolled value), sent := sent0 }
      else if has_figures_on_field cp then
        { game := g, next := some (GameState.Rolled value), sent := sent0 }
      else if attempt ≥ 2 then
        { game := g, next := some GameState.MoveToNextTurn, sent := sent0 }
      else
        { game := g, next := some (GameState.StartTurn (attempt + 1)), sent := sent0 }

/-- The `GameState::Rolled` branch of `step` (statemachine.rs lines 240-276),
after a `Move { figure }` request was received from the active player. -/
def step_move (g : Game) (cp : GamePlayer) (value : Nat) (figure : Nat) : StepOut :=
  let cp1 := (move_figure cp figure value).fst
  let cd := check_done cp1
  let g1 := check_move (set_player g g.next_player cd.fst) g.next_player
  { game := g1
    next := some (if value = 6 && !cd.snd then GameState.StartTurn 0 else GameState.MoveToNextTurn)
    sent := send_state g1 }

/-- The `GameState::MoveToNextTurn` branch of `step` (statemachine.rs lines
277-313). The Rust guard `!current_player.is_done() && current_player.check_done()`
short-circuits, so `check_done` only runs when the flag is still unset. -/
def step_advance (g : Game) (cp : GamePlayer) : StepOut :=
  let cd := if cp.done then (cp, false) else check_done cp
  let g1 := set_player g g.next_player cd.fst
  let g2 := if cd.snd then { g1 with ranking := g1.ranking ++ [g.next_player] } else g1
  let sent1 := if cd.snd then broadcast g2 (GameResponse.PlayerDone g.next_player) else []
  if game_is_done g2 then
    { game := g2
      next := some GameState.Done
      sent := sent1 ++ broadcast g2 (GameResponse.GameDone g2.ranking) }
  else
    { game := { g2 with next_player := advance_player g2.players g2.next_player g2.players.length }
      next := some (GameState.StartTurn 0)
      sent := sent1 }

/-- The `GameState::WaitingForReconnect` branch of `step` (statemachine.rs
lines 72-108): a rejoin event whose key matches a player's rejoin code
replaces that player's channel halves and resumes the suspended state. -/
def step_reconnect (g : Game) (prev_state : GameState) (key : Nat) (tx : Nat) (rx : Nat) :
    StepOut :=
  match find_index (fun p => decide (p.rejoin_code = key)) g.players with
  | some player_index =>
      match g.players.get? player_index with
      | some rp =>
          let g1 := set_player g player_index { rp with send := tx, recv := rx }
          { game := g1
            next := some prev_state
            sent := send_state g1 ++ indicate_players g1 }
      | none =>
          { game := g, next := some (GameState.WaitingForReconnect prev_state), sent := [] }
  | none =>
      { game := g, next := some (GameState.WaitingForReconnect prev_state), sent := [] }

/-- `statemachine::step` (statemachine.rs lines 46-320). The Rust function
starts by unwrapping the active player; an out-of-range `next_player` (a
panic in Rust) is modelled as a no-op. Paths the source handles by
suspending on transport failure are not modelled: every send succeeds and
every receive yields the event passed in. -/
def step (prev : GameState) (g : Game) (ev : GameEvent) (roll : Nat) : StepOut :=
  match g.players.get? g.next_player with
  | none => { game := g, next := some prev, sent := [] }
  | some cp =>
      match prev with
      | GameState.WaitingForReconnect prev_state =>
          match ev with
          | GameEvent.Rejoin key tx rx => step_reconnect g prev_state key tx rx
          | GameEvent.Request _ =>
              { game := g, next := some (GameState.WaitingForReconnect prev_state), sent := [] }
      | GameState.StartTurn attempt =>
          match ev with
          | GameEvent.Request GameRequest.Roll => step_roll g cp attempt roll
          | GameEvent.Request (GameRequest.Move _) =>
              { game := g
                next := some (GameState.StartTurn attempt)
                sent := [(g.next_player, GameResponse.Turn)] }
          | GameEvent.Rejoin _ _ _ =>
              { game := g, next := some (GameState.StartTurn attempt), sent := [] }
      | GameState.Rolled value =>
          match ev with
          | GameEvent.Request (GameRequest.Move figure) => step_move g cp value figure
          | GameEvent.Request GameRequest.Roll =>
              { game := g, next := some (GameState.Rolled value), sent := [] }
          | GameEvent.Rejoin _ _ _ =>
              { game := g, next := some (GameState.Rolled value), sent := [] }
      | GameState.MoveToNextTurn => step_advance g cp
      | GameState.Done => { game := g, next := none, sent := [] }

/-- Game configurations reachable from a freshly created game (every player
with four `InStart` figures, `done = false`, empty ranking) in the initial
machine state `StartTurn 0`, by repeated application of `step`. -/
inductive Reachable : Game → GameState → Prop where
  | init (ps : List (String × Nat × Nat × Nat)) (start : Nat) :
      Reachable (new_game ps start) (GameState.StartTurn 0)
  | next (g : Game) (s : GameState) (ev : GameEvent) (roll : Nat) (s2 : GameState) :
      Reachable g s → (step s g ev roll).next = some s2 →
      Reachable (step s g ev roll).game s2

/-! ### Concrete sample data used to instantiate theorems -/

/-- A player whose entry-square figure is blocked by its own figure 3 cells
ahead. -/
def p_entry_blocked : GamePlayer :=
  { name := "a"
    send := 0
    recv := 0
    figures := [Figure.OnField 0, Figure.OnField 3, Figure.InStart, Figure.InStart]
    done := false
    rejoin_code := 0 }

/-- A player with all four figures at home, already marked completed. -/
def p_all_home_done : GamePlayer :=
  { name := "a"
    send := 0
    recv := 0
    figures := [Figure.InHouse 0, Figure.InHouse 1, Figure.InHouse 2, Figure.InHouse 3]
    done := true
    rejoin_code := 0 }

/-- A player with all four figures at home whose flag is not yet set. -/
def p_all_home : GamePlayer :=
  { name := "a"
    send := 0
    recv := 0
    figures := [Figure.InHouse 0, Figure.InHouse 1, Figure.InHouse 2, Figure.InHouse 3]
    done := false
    rejoin_code := 0 }

/-- Mover for the capture sample: one figure on shared board cell 10. -/
def pA : GamePlayer :=
  { name := "a"
    send := 0
    recv := 0
    figures := [Figure.OnField 10, Figure.InStart, Figure.InStart, Figure.InStart]
    done := false
    rejoin_code := 0 }

/-- Victim for the capture sample: as player 1, its first figure occupies
shared board cell (0 + 1 * 10) % 40 = 10. -/
def pB : GamePlayer :=
  { name := "b"
    send := 1
    recv := 1
    figures := [Figure.OnField 0, Figure.InStart, Figure.InStart, Figure.InStart]
    done := false
    rejoin_code := 1 }

/-- Two-player capture sample game. -/
def g_capture : Game :=
  { players := [pA, pB]
    next_player := 0
    ranking := [] }

/-- Jam sample game: the active player 0 has a figure on its entry square
and another still in the start area. -/
def g_jam : Game :=
  { players := [p_entry_blocked, pB]
    next_player := 0
    ranking := [] }

/-- All-on-track player for the pending-move sample. -/
def pC : GamePlayer :=
  { name := "c"
    send := 0
    recv := 0
    figures := [Figure.OnField 1, Figure.OnField 2, Figure.OnField 3, Figure.OnField 4]
    done := false
    rejoin_code := 0 }

/-- Sample game whose roll leads to the `Rolled` (pending move) state. -/
def g_pending : Game :=
  { players := [pC, pB]
    next_player := 0
    ranking := [] }

/-- Player one move away from completion: three figures home, the last one
4 steps from home slot 3. -/
def p_finishing : GamePlayer :=
  { name := "a"
    send := 0
    recv := 0
    figures := [Figure.InHouse 0, Figure.InHouse 1, Figure.InHouse 2, Figure.OnField 39]
    done := false
    rejoin_code := 0 }

/-- Finishing sample: the active player 0 completes with the next move. -/
def g_finish : Game :=
  { players := [p_finishing, new_player "b" 1 1 1]
    next_player := 0
    ranking := [] }

/-- The finishing sample after `Move 3` with rolled value 4. -/
def g_finish_after : Game :=
  (step (GameState.Rolled 4) g_finish (GameEvent.Request (GameRequest.Move 3)) 0).game

/-- A second player that is already completed. -/
def p_done_b : GamePlayer :=
  { name := "b"
    send := 1
    recv := 1
    figures := [Figure.InHouse 0, Figure.InHouse 1, Figure.InHouse 2, Figure.InHouse 3]
    done := true
    rejoin_code := 1 }

/-- Sample where the last non-completed player finishes with the next move. -/
def g_last : Game :=
  { players := [p_finishing, p_done_b]
    next_player := 0
    ranking := [] }

/-- The last-player sample after `Move 3` with rolled value 4. -/
def g_last_after : Game :=
  (step (GameState.Rolled 4) g_last (GameEvent.Request (GameRequest.Move 3)) 0).game

/-- The last-player sample after the final `MoveToNextTurn` step. -/
def g_last_final : Game :=
  (step GameState.MoveToNextTurn g_last_after (GameEvent.Request GameRequest.Roll) 0).game

/-! ## Helper lemmas -/

theorem mapFromIdx_length (f : Nat → α → β) (k : Nat) (l : List α) :
    (mapFromIdx f k l).length = l.length := by
  induction l generalizing k with
  | nil => rfl
  | cons x xs ih => simp [mapFromIdx, ih]

theorem mapFromIdx_get? (f : Nat → α → β) (k i : Nat) (l : List α) :
    (mapFromIdx f k l).get? i = (l.get? i).map (f (k + i)) := by
  induction l generalizing k i with
  | nil => simp [mapFromIdx]
  | cons x xs ih =>
      cases i with
      | zero => simp [mapFromIdx]
      | succ j =>
          simp only [mapFromIdx, List.get?]
          rw [ih (k + 1) j]
          have : k + 1 + j = k + (j + 1) := by omega
          rw [this]

theorem find_index_none_iff (p : α → Bool) (l : List α) :
    find_index p l = none ↔ ∀ x ∈ l, p x = false := by
  induction l with
  | nil => simp [find_index]
  | cons x xs ih =>
      by_cases hx : p x = true
      · constructor
        · intro h
          simp [find_index, hx] at h
        · intro h
          have hcontra := h x (List.mem_cons_self x xs)
          rw [hx] at hcontra
          cases hcontra
      · have hx2 : p x = false := by simpa using hx
        constructor
        · intro h y hy
          rcases List.mem_cons.mp hy with rfl | hy2
          · exact hx2
          · refine ih.mp ?_ y hy2
            simpa [find_index, hx2, Option.map_eq_none] using h
        · intro h
          have h2 : find_index p xs = none :=
            ih.mpr (fun y hy => h y (List.mem_cons_of_mem x hy))
          simp [find_index, hx2, h2]

theorem find_index_some (p : α → Bool) (l : List α) (i : Nat)
    (h : find_index p l = some i) :
    ∃ x, l.get? i = some x ∧ p x = true := by
  induction l generalizing i with
  | nil => simp [find_index] at h
  | cons x xs ih =>
      by_cases hx : p x
      · rw [find_index, if_pos hx] at h
        cases h
        exact ⟨x, rfl, hx⟩
      · have hx2 : p x = false := by simpa using hx
        cases hfi : find_index p xs with
        | none =>
            rw [find_index, hfi] at h
            simp [hx2] at h
        | some j =>
            rw [find_index, hfi] at h
            simp only [hx2, Bool.false_eq_true, if_false] at h
            simp only [Option.map, Option.some.injEq] at h
            subst h
            rcases ih j hfi with ⟨y, hy, hpy⟩
            exact ⟨y, by simpa [List.get?] using hy, hpy⟩

theorem find_index_isSome (p : α → Bool) (l : List α) (x : α)
    (hx : x ∈ l) (hp : p x = true) : ∃ i, find_index p l = some i := by
  cases h : find_index p l with
  | some i => exact ⟨i, rfl⟩
  | none =>
      have := (find_index_none_iff p l).mp h x hx
      rw [hp] at this
      cases this

theorem get?_mem {l : List α} {i : Nat} {x : α} (h : l.get? i = some x) : x ∈ l := by
  rcases List.get?_eq_some.mp h with ⟨hlt, rfl⟩
  exact List.get_mem l i hlt

theorem contains_iff_mem {l : List Nat} {a : Nat} : l.contains a = true ↔ a ∈ l :=
  List.elem_iff

theorem capture_player_done (cells : List Nat) (player pindex : Nat) (pl : GamePlayer) :
    (capture_player cells player pindex pl).done = pl.done := by
  unfold capture_player
  split <;> rfl

theorem capture_player_self (cells : List Nat) (player : Nat) (pl : GamePlayer) :
    capture_player cells player player pl = pl := by
  simp [capture_player]

theorem check_move_eq_of_none {g : Game} {mover : Nat}
    (hm : g.players.get? mover = none) : check_move g mover = g := by
  unfold check_move
  rw [hm]

theorem check_move_eq_of_some {g : Game} {mover : Nat} {mp : GamePlayer}
    (hm : g.players.get? mover = some mp) :
    check_move g mover =
      { g with
        players :=
          mapFromIdx (capture_player (capture_targets mp mover) mover) 0 g.players } := by
  unfold check_move
  rw [hm]

theorem check_move_ranking (g : Game) (pl : Nat) :
    (check_move g pl).ranking = g.ranking := by
  unfold check_move
  cases g.players.get? pl <;> rfl

theorem check_move_next_player (g : Game) (pl : Nat) :
    (check_move g pl).next_player = g.next_player := by
  unfold check_move
  cases g.players.get? pl <;> rfl

theorem check_move_length (g : Game) (pl : Nat) :
    (check_move g pl).players.length = g.players.length := by
  cases hm : g.players.get? pl with
  | none => rw [check_move_eq_of_none hm]
  | some mp => rw [check_move_eq_of_some hm]; simp [mapFromIdx_length]

theorem check_move_get? (g : Game) (pl i : Nat) {mp : GamePlayer}
    (hm : g.players.get? pl = some mp) :
    (check_move g pl).players.get? i =
      (g.players.get? i).map (capture_player (capture_targets mp pl) pl i) := by
  rw [check_move_eq_of_some hm]
  show (mapFromIdx (capture_player (capture_targets mp pl) pl) 0 g.players).get? i = _
  rw [mapFromIdx_get?, Nat.zero_add]

theorem any_eq_false_of_all {l : List α} {p : α → Bool}
    (h : ∀ x ∈ l, p x = false) : l.any p = false := by
  cases hany : l.any p
  · rfl
  · rcases List.any_eq_true.mp hany with ⟨x, hx, hpx⟩
    rw [h x hx] at hpx
    cases hpx

theorem mem_broadcast (g : Game) (msg : GameResponse) (i : Nat)
    (h : i < g.players.length) : (i, msg) ∈ broadcast g msg := by
  unfold broadcast
  rw [List.mem_map]
  exact ⟨i, List.mem_range.mpr h, rfl⟩

theorem any_jam_iff (instart : Bool) (l : List Figure) :
    l.any (jam_predicate instart) = true ↔ (instart = true ∧ Figure.OnField 0 ∈ l) := by
  rw [List.any_eq_true]
  constructor
  · rintro ⟨f, hf, hjp⟩
    cases f with
    | OnField m =>
        simp only [jam_predicate, Bool.and_eq_true, decide_eq_true_eq] at hjp
        rcases hjp with ⟨rfl, hin⟩
        exact ⟨hin, hf⟩
    | InStart => cases hjp
    | InHouse q => cases hjp
  · rintro ⟨hs, hmem⟩
    refine ⟨Figure.OnField 0, hmem, ?_⟩
    simp [jam_predicate, hs]

theorem check_move_done_eq (g : Game) (pl i : Nat) {p : GamePlayer}
    (hp : g.players.get? i = some p) :
    ∃ q, (check_move g pl).players.get? i = some q ∧ q.done = p.done := by
  cases hm : g.players.get? pl with
  | none => exact ⟨p, by rw [check_move_eq_of_none hm]; exact hp, rfl⟩
  | some mp =>
      refine ⟨capture_player (capture_targets mp pl) pl i p, ?_, capture_player_done _ _ _ _⟩
      rw [check_move_get? g pl i hm, hp]
      rfl

theorem set_player_get?_self {g : Game} {i : Nat} (p : GamePlayer)
    (h : i < g.players.length) :
    (set_player g i p).players.get? i = some p := by
  show (g.players.set i p).get? i = some p
  rw [List.get?_eq_getElem?, List.getElem?_set_self h]

theorem set_player_get?_ne (g : Game) (i : Nat) (p : GamePlayer) (j : Nat) (h : i ≠ j) :
    (set_player g i p).players.get? j = g.players.get? j := by
  show (g.players.set i p).get? j = g.players.get? j
  rw [List.get?_eq_getElem?, List.getElem?_set_ne h, ← List.get?_eq_getElem?]

theorem move_figure_fst_done (p : GamePlayer) (i a : Nat) :
    ((move_figure p i a).fst).done = p.done := by
  unfold move_figure
  cases p.figures.get? i with
  | none => rfl
  | some f =>
      dsimp only
      split
      · rfl
      · rfl

theorem check_done_fst_done_mono (p : GamePlayer) (h : p.done = true) :
    ((check_done p).fst).done = true := by
  unfold check_done
  split
  · rfl
  · exact h

theorem check_done_snd_fst_done (p : GamePlayer) (h : (check_done p).snd = true) :
    ((check_done p).fst).done = true := by
  by_cases hall : p.figures.all
      (fun f => match f with | Figure.InHouse _ => true | _ => false) = true
  · unfold check_done
    rw [if_pos hall]
  · unfold check_done at h
    rw [if_neg hall] at h
    cases h

theorem step_reconnect_game (g : Game) (prev : GameState) (key tx rx : Nat) :
    (step_reconnect g prev key tx rx).game = g
    ∨ ∃ i p, g.players.get? i = some p ∧
        (step_reconnect g prev key tx rx).game =
          set_player g i { p with send := tx, recv := rx } := by
  cases hfind : find_index (fun q => decide (q.rejoin_code = key)) g.players with
  | none =>
      left
      simp only [step_reconnect, hfind]
  | some i =>
      cases hp : g.players.get? i with
      | none =>
          left
          simp only [step_reconnect, hfind, hp]
      | some rp =>
          right
          exact ⟨i, rp, hp, by simp only [step_reconnect, hfind, hp]⟩

theorem step_roll_game (g : Game) (cp : GamePlayer) (attempt value : Nat) :
    (step_roll g cp attempt value).game = g
    ∨ ∃ cp1, cp1.done = cp.done ∧
        (step_roll g cp attempt value).game =
          check_move (set_player g g.next_player cp1) g.next_player := by
  cases hfind : find_index (jam_predicate (has_figures_in_start cp)) cp.figures with
  | some findex =>
      right
      refine ⟨(move_figure cp findex value).fst, move_figure_fst_done cp findex value, ?_⟩
      simp only [step_roll, hfind]
  | none =>
      by_cases h6 : value = 6
      · cases hinstart : find_index is_instart cp.figures with
        | some index =>
            right
            refine ⟨{ cp with figures := cp.figures.set index (Figure.OnField 0) }, rfl, ?_⟩
            simp only [step_roll, hfind, hinstart]
            rw [if_pos h6]
        | none =>
            left
            simp only [step_roll, hfind, hinstart]
            rw [if_pos h6]
      · left
        simp only [step_roll, hfind]
        rw [if_neg h6]
        split
        · rfl
        · split
          · rfl
          · rfl

theorem step_roll_ranking (g : Game) (cp : GamePlayer) (attempt value : Nat) :
    (step_roll g cp attempt value).game.ranking = g.ranking := by
  rcases step_roll_game g cp attempt value with h | ⟨cp1, _, h⟩
  · rw [h]
  · rw [h, check_move_ranking]
    rfl

theorem step_move_game (g : Game) (cp : GamePlayer) (value figure : Nat) :
    (step_move g cp value figure).game =
      check_move (set_player g g.next_player
        ((check_done (move_figure cp figure value).fst).fst)) g.next_player := rfl

theorem step_advance_game (g : Game) (cp : GamePlayer) :
    ∃ cp1, (cp.done = true → cp1.done = true)
      ∧ (step_advance g cp).game.players = g.players.set g.next_player cp1
      ∧ ((step_advance g cp).game.ranking = g.ranking
        ∨ ((step_advance g cp).game.ranking = g.ranking ++ [g.next_player]
            ∧ cp.done = false ∧ cp1 = (check_done cp).fst ∧ cp1.done = true)) := by
  cases hdone : cp.done with
  | true =>
      refine ⟨cp, fun _ => hdone, ?_, Or.inl ?_⟩
      · unfold step_advance
        simp only [hdone, reduceIte, Bool.false_eq_true, if_false]
        split <;> rfl
      · unfold step_advance
        simp only [hdone, reduceIte, Bool.false_eq_true, if_false]
        split <;> rfl
  | false =>
      cases hsnd : (check_done cp).snd with
      | false =>
          refine ⟨(check_done cp).fst, fun h => by simp [hdone] at h, ?_, Or.inl ?_⟩
          · unfold step_advance
            simp only [hdone, hsnd, reduceIte, Bool.false_eq_true, if_false]
            split <;> rfl
          · unfold step_advance
            simp only [hdone, hsnd, reduceIte, Bool.false_eq_true, if_false]
            split <;> rfl
      | true =>
          refine ⟨(check_done cp).fst, fun h => by simp [hdone] at h, ?_,
            Or.inr ⟨?_, rfl, rfl, check_done_snd_fst_done cp hsnd⟩⟩
          · unfold step_advance
            simp only [hdone, hsnd, reduceIte, Bool.false_eq_true, if_false]
            split <;> rfl
          · unfold step_advance
            simp only [hdone, hsnd, reduceIte, Bool.false_eq_true, if_false]
            split <;> rfl

theorem step_effect (s : GameState) (g : Game) (ev : GameEvent) (roll : Nat) :
    ((step s g ev roll).game.ranking = g.ranking
      ∧ ((step s g ev roll).game.players = g.players
        ∨ (∃ i p, g.players.get? i = some p ∧ ∃ p1, (p.done = true → p1.done = true) ∧
            (step s g ev roll).game.players = g.players.set i p1)
        ∨ (∃ cp cp1, g.players.get? g.next_player = some cp
            ∧ (cp.done = true → cp1.done = true)
            ∧ (step s g ev roll).game.players =
                (check_move (set_player g g.next_player cp1) g.next_player).players)))
    ∨ ((step s g ev roll).game.ranking = g.ranking ++ [g.next_player]
      ∧ ∃ cp, g.players.get? g.next_player = some cp ∧ cp.done = false
        ∧ (step s g ev roll).game.players =
            g.players.set g.next_player ((check_done cp).fst)
        ∧ ((check_done cp).fst).done = true) := by
  cases hcp : g.players.get? g.next_player with
  | none =>
      left
      constructor
      · simp only [step, hcp]
      · left
        simp only [step, hcp]
  | some cp =>
      cases s with
      | WaitingForReconnect prev =>
          cases ev with
          | Rejoin key tx rx =>
              have hst : step (GameState.WaitingForReconnect prev) g
                  (GameEvent.Rejoin key tx rx) roll = step_reconnect g prev key tx rx := by
                unfold step
                rw [hcp]
              rcases step_reconnect_game g prev key tx rx with h | ⟨i, p, hp, h⟩
              · left
                rw [hst, h]
                exact ⟨rfl, Or.inl rfl⟩
              · left
                rw [hst, h]
                exact ⟨rfl, Or.inr (Or.inl ⟨i, p, hp,
                  { p with send := tx, recv := rx }, fun hd => hd, rfl⟩)⟩
          | Request req =>
              left
              constructor
              · simp only [step, hcp]
              · left
                simp only [step, hcp]
      | StartTurn attempt =>
          cases ev with
          | Request req =>
              cases req with
              | Roll =>
                  have hst : step (GameState.StartTurn attempt) g
                      (GameEvent.Request GameRequest.Roll) roll = step_roll g cp attempt roll := by
                    unfold step
                    rw [hcp]
                  rcases step_roll_game g cp attempt roll with h | ⟨cp1, hd, h⟩
                  · left
                    rw [hst]
                    refine ⟨step_roll_ranking g cp attempt roll, Or.inl (by rw [h])⟩
                  · left
                    rw [hst]
                    refine ⟨step_roll_ranking g cp attempt roll,
                      Or.inr (Or.inr ⟨cp, cp1, rfl, fun hdd => by rw [hd]; exact hdd, by rw [h]⟩)⟩
              | Move f =>
                  left
                  constructor
                  · simp only [step, hcp]
                  · left
                    simp only [step, hcp]
          | Rejoin key tx rx =>
              left
              constructor
              · simp only [step, hcp]
              · left
                simp only [step, hcp]
      | Rolled value =>
          cases ev with
          | Request req =>
              cases req with
              | Move figure =>
                  have hst : step (GameState.Rolled value) g
                      (GameEvent.Request (GameRequest.Move figure)) roll
                      = step_move g cp value figure := by
                    unfold step
                    rw [hcp]
                  left
                  rw [hst, step_move_game]
                  constructor
                  · rw [check_move_ranking]
                    rfl
                  · refine Or.inr (Or.inr ⟨cp,
                      (check_done (move_figure cp figure value).fst).fst, rfl, ?_, rfl⟩)
                    intro hd
                    refine check_done_fst_done_mono _ ?_
                    rw [move_figure_fst_done]
                    exact hd
              | Roll =>
                  left
                  constructor
                  · simp only [step, hcp]
                  · left
                    simp only [step, hcp]
          | Rejoin key tx rx =>
              left
              constructor
              · simp only [step, hcp]
              · left
                simp only [step, hcp]
      | MoveToNextTurn =>
          have hst : step GameState.MoveToNextTurn g ev roll = step_advance g cp := by
            unfold step
            rw [hcp]
          obtain ⟨cp1, hmono, hplayers, hrank⟩ := step_advance_game g cp
          rcases hrank with hrank | ⟨hrank, hdonef, hcp1eq, hcp1done⟩
          · left
            rw [hst]
            exact ⟨hrank, Or.inr (Or.inl ⟨g.next_player, cp, hcp, cp1, hmono, hplayers⟩)⟩
          · right
            rw [hst]
            refine ⟨hrank, cp, rfl, hdonef, ?_, ?_⟩
            · rw [hplayers, hcp1eq]
            · rw [← hcp1eq]
              exact hcp1done
      | Done =>
          left
          constructor
          · simp only [step, hcp]
          · left
            simp only [step, hcp]

theorem step_done_monotone (s : GameState) (g : Game) (ev : GameEvent) (roll : Nat)
    (i : Nat) (p : GamePlayer) (hp : g.players.get? i = some p) :
    ∃ q, (step s g ev roll).game.players.get? i = some q
      ∧ (p.done = true → q.done = true) := by
  have hlt : i < g.players.length := (List.get?_eq_some.mp hp).1
  rcases step_effect s g ev roll with ⟨_, hpl⟩ | ⟨_, cp, hcp, hcpdone, hpl, hfdone⟩
  · rcases hpl with h | ⟨j, pj, hpj, p1, hmono, h⟩ | ⟨cp, cp1, hcp, hmono, h⟩
    · exact ⟨p, by rw [h]; exact hp, fun x => x⟩
    · by_cases hij : i = j
      · subst hij
        rw [hp] at hpj
        injection hpj with he
        refine ⟨p1, ?_, ?_⟩
        · rw [h]
          show (g.players.set i p1).get? i = some p1
          rw [List.get?_eq_getElem?, List.getElem?_set_self hlt]
        · intro hd
          exact hmono (he ▸ hd)
      · refine ⟨p, ?_, fun x => x⟩
        rw [h]
        show (g.players.set j p1).get? i = some p
        rw [List.get?_eq_getElem?, List.getElem?_set_ne (fun hji => hij hji.symm),
          ← List.get?_eq_getElem?]
        exact hp
    · by_cases hin : i = g.next_player
      · rw [hin] at hp hlt
        rw [hp] at hcp
        injection hcp with he
        have hset : (set_player g g.next_player cp1).players.get? g.next_player = some cp1 :=
          set_player_get?_self cp1 hlt
        obtain ⟨q, hq, hqd⟩ :=
          check_move_done_eq (set_player g g.next_player cp1) g.next_player g.next_player hset
        refine ⟨q, by rw [h, hin]; exact hq, ?_⟩
        intro hd
        rw [hqd]
        exact hmono (he ▸ hd)
      · have hset : (set_player g g.next_player cp1).players.get? i = g.players.get? i :=
          set_player_get?_ne g g.next_player cp1 i (fun hni => hin hni.symm)
        obtain ⟨q, hq, hqd⟩ := check_move_done_eq (set_player g g.next_player cp1)
          g.next_player i (by rw [hset]; exact hp)
        refine ⟨q, by rw [h]; exact hq, ?_⟩
        intro hd
        rw [hqd]
        exact hd
  · by_cases hin : i = g.next_player
    · rw [hin] at hlt
      refine ⟨(check_done cp).fst, ?_, fun _ => hfdone⟩
      rw [hpl, hin]
      show (g.players.set g.next_player ((check_done cp).fst)).get? g.next_player
        = some ((check_done cp).fst)
      rw [List.get?_eq_getElem?, List.getElem?_set_self hlt]
    · refine ⟨p, ?_, fun x => x⟩
      rw [hpl]
      show (g.players.set g.next_player ((check_done cp).fst)).get? i = some p
      rw [List.get?_eq_getElem?, List.getElem?_set_ne (fun hni => hin hni.symm),
        ← List.get?_eq_getElem?]
      exact hp

/-- The ranking bookkeeping invariant: no duplicates, and every ranked index
belongs to a completed player. -/
def RankingInv (g : Game) : Prop :=
  g.ranking.Nodup ∧ ∀ i ∈ g.ranking, ∃ p, g.players.get? i = some p ∧ p.done = true

theorem step_preserves_RankingInv (s : GameState) (g : Game) (ev : GameEvent) (roll : Nat)
    (h : RankingInv g) : RankingInv ((step s g ev roll).game) := by
  rcases hre : step_effect s g ev roll with ⟨hrank, -⟩ | ⟨hrank, cp, hcp, hcpdone, hpl, hfdone⟩
  · constructor
    · rw [hrank]
      exact h.1
    · intro i hi
      rw [hrank] at hi
      obtain ⟨p, hp, hpdone⟩ := h.2 i hi
      obtain ⟨q, hq, hqd⟩ := step_done_monotone s g ev roll i p hp
      exact ⟨q, hq, hqd hpdone⟩
  · have hnp_not_mem : g.next_player ∉ g.ranking := by
      intro hmem
      obtain ⟨p, hp, hpdone⟩ := h.2 g.next_player hmem
      rw [hcp] at hp
      injection hp with he
      rw [he, hpdone] at hcpdone
      exact Bool.noConfusion hcpdone
    have hlt : g.next_player < g.players.length := (List.get?_eq_some.mp hcp).1
    constructor
    · rw [hrank]
      rw [List.nodup_append]
      refine ⟨h.1, List.nodup_singleton _, ?_⟩
      intro a ha hb
      rw [List.mem_singleton] at hb
      subst hb
      exact hnp_not_mem ha
    · intro i hi
      rw [hrank] at hi
      rcases List.mem_append.mp hi with hi | hi
      · obtain ⟨p, hp, hpdone⟩ := h.2 i hi
        obtain ⟨q, hq, hqd⟩ := step_done_monotone s g ev roll i p hp
        exact ⟨q, hq, hqd hpdone⟩
      · rw [List.mem_singleton] at hi
        refine ⟨(check_done cp).fst, ?_, hfdone⟩
        rw [hi, hpl]
        show (g.players.set g.next_player ((check_done cp).fst)).get? g.next_player
          = some ((check_done cp).fst)
        rw [List.get?_eq_getElem?, List.getElem?_set_self hlt]

theorem reachable_RankingInv (g : Game) (s : GameState) (h : Reachable g s) :
    RankingInv g := by
  induction h with
  | init ps start =>
      constructor
      · exact List.nodup_nil
      · intro i hi
        cases hi
  | next g s ev roll s2 hre hnext ih =>
      exact step_preserves_RankingInv s g ev roll ih

/-! ## C1: the movement primitive -/

/-- C1, counterexample to the claim as stated: quantified over *every* figure,
the movement primitive can return `OnTrack(steps)` with `steps >= 40` — an
out-of-range input figure overshoots and is returned unchanged. -/
theorem c1_counterexample :
    apply_move (Figure.OnField 45) 1 = Figure.OnField 45 ∧ ¬ (45 < 40) := by
  decide

/-- C1 (amended): the movement primitive maps `OnTrack(steps)` to
`OnTrack(steps+amount)` when `steps+amount < 40`, to `AtHome(steps+amount-40)`
when `40 <= steps+amount < 44`, and otherwise to the unchanged input; maps
`AtHome(slot)` to `AtHome(slot+amount)` when `slot+amount < 4` and otherwise
to the unchanged input; maps `AtStart` to `AtStart`. For every *in-range*
input figure (`OnTrack` steps below 40, `AtHome` slot below 4) the result is
never `OnTrack(s)` with `s >= 40` nor `AtHome(p)` with `p >= 4`. -/
theorem c1_apply_move_cases (f : Figure) (amount : Nat) :
    (f = Figure.InStart → apply_move f amount = Figure.InStart)
    ∧ (∀ steps, f = Figure.OnField steps →
        (steps + amount < 40 → apply_move f amount = Figure.OnField (steps + amount))
        ∧ (40 ≤ steps + amount → steps + amount < 44 →
            apply_move f amount = Figure.InHouse (steps + amount - 40))
        ∧ (44 ≤ steps + amount → apply_move f amount = f))
    ∧ (∀ slot, f = Figure.InHouse slot →
        (slot + amount < 4 → apply_move f amount = Figure.InHouse (slot + amount))
        ∧ (4 ≤ slot + amount → apply_move f amount = f))
    ∧ (figure_wf f = true →
        (∀ s, apply_move f amount = Figure.OnField s → s < 40)
        ∧ (∀ s, apply_move f amount = Figure.InHouse s → s < 4)) := by
  cases f with
  | InStart =>
      refine ⟨fun _ => rfl, ?_, ?_, ?_⟩
      · intro steps h; cases h
      · intro slot h; cases h
      · intro _
        constructor <;> intro s h <;> simp [apply_move] at h
  | OnField m =>
      refine ⟨?_, ?_, ?_, ?_⟩
      · intro h; cases h
      · intro steps h
        cases h
        refine ⟨?_, ?_, ?_⟩
        · intro h1; simp [apply_move, h1]
        · intro h1 h2
          have hn : ¬ (m + amount < 40) := by omega
          have hd : m + amount - 40 < 4 := by omega
          simp [apply_move, hn, hd]
        · intro h1
          have hn : ¬ (m + amount < 40) := by omega
          have hd : ¬ (m + amount - 40 < 4) := by omega
          simp [apply_move, hn, hd]
      · intro slot h; cases h
      · intro hwf
        have hm : m < 40 := by simpa [figure_wf] using hwf
        constructor <;> intro s h
        · simp only [apply_move] at h
          split at h
          · cases h; omega
          · split at h
            · cases h
            · cases h; omega
        · simp only [apply_move] at h
          split at h
          · cases h
          · split at h
            · cases h; omega
            · cases h
  | InHouse q =>
      refine ⟨?_, ?_, ?_, ?_⟩
      · intro h; cases h
      · intro steps h; cases h
      · intro slot h
        cases h
        constructor
        · intro h1; simp [apply_move, h1]
        · intro h1
          have hn : ¬ (q + amount < 4) := by omega
          simp [apply_move, hn]
      · intro hwf
        have hq : q < 4 := by simpa [figure_wf] using hwf
        constructor <;> intro s h
        · simp only [apply_move] at h
          split at h <;> cases h
        · simp only [apply_move] at h
          split at h
          · cases h; omega
          · cases h; omega

/-- C1 witness: instantiating the amended movement theorem at concrete
inputs covering an entry move, a home entry and an overshoot. -/
theorem c1_apply_move_cases_witness :
    apply_move (Figure.OnField 3) 4 = Figure.OnField 7
    ∧ apply_move (Figure.OnField 38) 4 = Figure.InHouse 2
    ∧ apply_move (Figure.OnField 39) 6 = Figure.OnField 39 := by
  refine ⟨?_, ?_, ?_⟩
  · exact ((c1_apply_move_cases (Figure.OnField 3) 4).2.1 3 rfl).1 (by decide)
  · have h := ((c1_apply_move_cases (Figure.OnField 38) 4).2.1 38 rfl).2.1
      (by decide) (by decide)
    simpa using h
  · exact ((c1_apply_move_cases (Figure.OnField 39) 6).2.1 39 rfl).2.2 (by decide)

/-! ## C2: self-collision rejection in move_figure -/

/-- C2: if any figure of the same player (including the moved figure itself,
as in the overshoot and `AtStart` no-op cases) already equals the computed
result state, `move_figure` fails with `none` and the figure array is
unchanged; a successful call sets exactly the moved figure and its new state
differs from the state of every other figure of that player. -/
theorem c2_move_figure_no_duplicate (p : GamePlayer) (index amount : Nat) (f : Figure)
    (hf : p.figures.get? index = some f) :
    ((apply_move f amount) ∈ p.figures → move_figure p index amount = (p, none))
    ∧ ((move_figure p index amount).snd = none → (move_figure p index amount).fst = p)
    ∧ (∀ q res, move_figure p index amount = (q, some res) →
        res = apply_move f amount
        ∧ res ∉ p.figures
        ∧ q.figures = p.figures.set index res
        ∧ q.done = p.done
        ∧ ∀ j, j ≠ index → q.figures.get? j ≠ some res) := by
  have hf2 : p.figures[index]? = some f := by
    rw [← List.get?_eq_getElem?]
    exact hf
  refine ⟨?_, ?_, ?_⟩
  · intro hmem
    simp [move_figure, hf2, hmem]
  · intro hnone
    by_cases hmem : (apply_move f amount) ∈ p.figures
    · simp [move_figure, hf2, hmem]
    · simp [move_figure, hf2, hmem] at hnone
  · intro q res heq
    by_cases hmem : (apply_move f amount) ∈ p.figures
    · simp [move_figure, hf2, hmem] at heq
    · have hred : move_figure p index amount =
          ({ p with figures := p.figures.set index (apply_move f amount) },
            some (apply_move f amount)) := by
        simp [move_figure, hf2, hmem]
      rw [hred] at heq
      injection heq with h1 h2
      injection h2 with h3
      subst h3
      subst h1
      refine ⟨rfl, hmem, rfl, rfl, ?_⟩
      intro j hj hset
      have hget : p.figures.get? j = some (apply_move f amount) := by
        rw [← hset]
        exact (List.get?_set_ne _ _ (fun he => hj he.symm)).symm
      exact hmem (get?_mem hget)

/-- C2 witness: a player with figures on its own entry square and three cells
ahead cannot move the entry figure by 3 (the target state is already
occupied by its own figure), and the player is returned unchanged. -/
theorem c2_move_figure_no_duplicate_witness :
    move_figure p_entry_blocked 0 3 = (p_entry_blocked, none) :=
  (c2_move_figure_no_duplicate p_entry_blocked 0 3 (Figure.OnField 0)
    (by decide)).1 (by decide)

/-! ## C3: capture resolution -/

/-- C3: capture resolution resets to `AtStart` exactly those `OnTrack` figures
of players other than the mover whose board cell `(steps + owner * 10) % 40`
coincides with an occupied board cell of the mover, and leaves every other
figure — all remaining figures of other players and all figures of the
mover — unchanged (as is the rest of the game state). -/
theorem c3_check_move_captures (g : Game) (mover : Nat) (mp : GamePlayer)
    (hm : g.players.get? mover = some mp) :
    (check_move g mover).players.length = g.players.length
    ∧ (check_move g mover).next_player = g.next_player
    ∧ (check_move g mover).ranking = g.ranking
    ∧ (check_move g mover).players.get? mover = some mp
    ∧ (∀ c, c ∈ capture_targets mp mover ↔
        ∃ m, Figure.OnField m ∈ mp.figures ∧ c = (m + mover * 10) % 40)
    ∧ (∀ i p, i ≠ mover → g.players.get? i = some p →
        ∃ q, (check_move g mover).players.get? i = some q
          ∧ q.done = p.done ∧ q.name = p.name ∧ q.send = p.send ∧ q.recv = p.recv
          ∧ q.rejoin_code = p.rejoin_code
          ∧ q.figures.length = p.figures.length
          ∧ ∀ j fg, p.figures.get? j = some fg →
              (∀ m, fg = Figure.OnField m →
                (((m + i * 10) % 40) ∈ capture_targets mp mover →
                    q.figures.get? j = some Figure.InStart)
                ∧ (((m + i * 10) % 40) ∉ capture_targets mp mover →
                    q.figures.get? j = some fg))
              ∧ ((∀ m, fg ≠ Figure.OnField m) → q.figures.get? j = some fg)) := by
  refine ⟨check_move_length g mover, check_move_next_player g mover,
    check_move_ranking g mover, ?_, ?_, ?_⟩
  · rw [check_move_get? g mover mover hm, hm]
    simp [capture_player_self]
  · intro c
    unfold capture_targets
    rw [List.mem_filterMap]
    constructor
    · rintro ⟨f, hfm, hfc⟩
      cases f with
      | OnField m =>
          injection hfc with h
          exact ⟨m, hfm, h.symm⟩
      | InStart => exact Option.noConfusion hfc
      | InHouse q => exact Option.noConfusion hfc
    · rintro ⟨m, hmem, rfl⟩
      exact ⟨Figure.OnField m, hmem, rfl⟩
  · intro i p hi hp
    have hq : capture_player (capture_targets mp mover) mover i p =
        { p with figures := p.figures.map (capture_figure (capture_targets mp mover) i) } := by
      unfold capture_player
      rw [if_neg hi]
    refine ⟨capture_player (capture_targets mp mover) mover i p, ?_, ?_, ?_, ?_, ?_, ?_, ?_, ?_⟩
    · rw [check_move_get? g mover i hm, hp]
      rfl
    · rw [hq]
    · rw [hq]
    · rw [hq]
    · rw [hq]
    · rw [hq]
    · rw [hq]
      simp
    · intro j fg hj
      have hgj : (capture_player (capture_targets mp mover) mover i p).figures.get? j =
          some (capture_figure (capture_targets mp mover) i fg) := by
        rw [hq]
        show (p.figures.map (capture_figure (capture_targets mp mover) i)).get? j = _
        rw [List.get?_map, hj]
        rfl
      constructor
      · rintro m rfl
        constructor
        · intro hmem
          rw [hgj]
          simp only [capture_figure]
          rw [if_pos (contains_iff_mem.mpr hmem)]
        · intro hnmem
          rw [hgj]
          simp only [capture_figure]
          rw [if_neg (fun hc => hnmem (contains_iff_mem.mp hc))]
      · intro hnot
        rw [hgj]
        cases fg with
        | OnField m => exact absurd rfl (hnot m)
        | InStart => rfl
        | InHouse q => rfl

/-- C3 witness: in the two-player sample, the mover (player 0, figure on
cell 10) captures player 1's figure on the same cell; the victim's entry
figure is reset to `AtStart` while the mover is unchanged. -/
theorem c3_check_move_captures_witness :
    (check_move g_capture 0).players.get? 0 = some pA
    ∧ (check_move g_capture 0).ranking = g_capture.ranking := by
  have h := c3_check_move_captures g_capture 0 pA (by decide)
  exact ⟨h.2.2.2.1, h.2.2.1⟩

/-! ## C5: the start-jam auto-move -/

/-- C5: when the active player rolls while a figure sits on its entry square
`OnTrack(0)` and another figure is still `AtStart`, the entry figure is moved
automatically by the rolled value, captures are resolved, the new state is
broadcast to everyone, and the step returns `TurnStart(0)` for a 6 and
`AdvanceTurn` otherwise — the `PendingMove` state is never entered. -/
theorem c5_start_jam_auto_move (g : Game) (attempt value : Nat) (cp : GamePlayer)
    (hcp : g.players.get? g.next_player = some cp)
    (hstart : has_figures_in_start cp = true)
    (hjam : Figure.OnField 0 ∈ cp.figures) :
    ((step (GameState.StartTurn attempt) g (GameEvent.Request GameRequest.Roll) value).next =
        some (if value = 6 then GameState.StartTurn 0 else GameState.MoveToNextTurn))
    ∧ (∀ v, (step (GameState.StartTurn attempt) g (GameEvent.Request GameRequest.Roll) value).next
        ≠ some (GameState.Rolled v))
    ∧ (∃ findex,
        find_index (jam_predicate (has_figures_in_start cp)) cp.figures = some findex
        ∧ cp.figures.get? findex = some (Figure.OnField 0)
        ∧ (step (GameState.StartTurn attempt) g (GameEvent.Request GameRequest.Roll) value).game =
            check_move (set_player g g.next_player (move_figure cp findex value).fst)
              g.next_player
        ∧ (apply_move (Figure.OnField 0) value ∉ cp.figures →
            (move_figure cp findex value).fst.figures =
              cp.figures.set findex (apply_move (Figure.OnField 0) value)))
    ∧ (∀ i, i < (step (GameState.StartTurn attempt) g
          (GameEvent.Request GameRequest.Roll) value).game.players.length →
        (i, state_snapshot (step (GameState.StartTurn attempt) g
            (GameEvent.Request GameRequest.Roll) value).game)
          ∈ (step (GameState.StartTurn attempt) g
              (GameEvent.Request GameRequest.Roll) value).sent) := by
  have hjp : jam_predicate (has_figures_in_start cp) (Figure.OnField 0) = true := by
    simp [jam_predicate, hstart]
  obtain ⟨findex, hfind⟩ :=
    find_index_isSome (jam_predicate (has_figures_in_start cp)) cp.figures _ hjam hjp
  obtain ⟨x, hx, hpx⟩ := find_index_some _ _ _ hfind
  have hx0 : x = Figure.OnField 0 := by
    cases x with
    | OnField m =>
        simp only [jam_predicate, Bool.and_eq_true, decide_eq_true_eq] at hpx
        rw [hpx.1]
    | InStart => cases hpx
    | InHouse q => cases hpx
  subst hx0
  have hstep : step (GameState.StartTurn attempt) g (GameEvent.Request GameRequest.Roll) value
      = step_roll g cp attempt value := by
    unfold step
    rw [hcp]
  have hgame : (step_roll g cp attempt value).game =
      check_move (set_player g g.next_player (move_figure cp findex value).fst)
        g.next_player := by
    simp only [step_roll, hfind]
  have hnext : (step_roll g cp attempt value).next =
      some (if value = 6 then GameState.StartTurn 0 else GameState.MoveToNextTurn) := by
    simp only [step_roll, hfind]
  have hsent : (step_roll g cp attempt value).sent =
      [(g.next_player, GameResponse.Turn),
       (g.next_player, GameResponse.Rolled value
         (has_figures_on_field cp
           && !(decide (value = 6) && has_figures_in_start cp)
           && !(cp.figures.any (jam_predicate (has_figures_in_start cp)))))]
      ++ send_state (check_move (set_player g g.next_player
            (move_figure cp findex value).fst) g.next_player) := by
    simp only [step_roll, hfind]
  refine ⟨by rw [hstep, hnext], ?_, ?_, ?_⟩
  · intro v hne
    rw [hstep, hnext] at hne
    by_cases h6 : value = 6
    · rw [if_pos h6] at hne
      simp at hne
    · rw [if_neg h6] at hne
      simp at hne
  · refine ⟨findex, hfind, hx, by rw [hstep, hgame], ?_⟩
    intro hnmem
    have hx2 : cp.figures[findex]? = some (Figure.OnField 0) := by
      rw [← List.get?_eq_getElem?]
      exact hx
    simp [move_figure, hx2, hnmem]
  · intro i hi
    rw [hstep, hgame] at hi
    rw [hstep, hsent, hgame]
    refine List.mem_append.mpr (Or.inr ?_)
    exact mem_broadcast _ _ i hi

/-- C5 witness: in the jam sample, rolling a 5 auto-moves the entry figure
and advances the turn; rolling is never answered with a pending-move state. -/
theorem c5_start_jam_auto_move_witness :
    (step (GameState.StartTurn 0) g_jam (GameEvent.Request GameRequest.Roll) 5).next =
      some (if 5 = 6 then GameState.StartTurn 0 else GameState.MoveToNextTurn) :=
  (c5_start_jam_auto_move g_jam 0 5 p_entry_blocked (by decide) (by decide) (by decide)).1

/-! ## C6: the can_move flag of RollResult -/

/-- C6: whenever a roll in `TurnStart` transitions to `PendingMove(value)`,
the `Rolled` reply sent to the active player carries the rolled value, and its
`can_move` flag is true exactly when the player has a figure in play
(`OnTrack` or `AtHome`) and the start-jam condition (a figure `AtStart`
together with a figure at `OnTrack(0)`) does not block it. -/
theorem c6_rolled_can_move (g : Game) (attempt value v : Nat) (cp : GamePlayer)
    (hcp : g.players.get? g.next_player = some cp)
    (hnext : (step (GameState.StartTurn attempt) g
        (GameEvent.Request GameRequest.Roll) value).next = some (GameState.Rolled v)) :
    v = value
    ∧ (∃ cm, (g.next_player, GameResponse.Rolled value cm)
          ∈ (step (GameState.StartTurn attempt) g
              (GameEvent.Request GameRequest.Roll) value).sent
        ∧ (cm = true ↔ (has_figures_on_field cp = true
            ∧ ¬ (has_figures_in_start cp = true ∧ Figure.OnField 0 ∈ cp.figures))))
    ∧ (∀ i v2 cm, (i, GameResponse.Rolled v2 cm)
          ∈ (step (GameState.StartTurn attempt) g
              (GameEvent.Request GameRequest.Roll) value).sent →
        i = g.next_player ∧ v2 = value
        ∧ (cm = true ↔ (has_figures_on_field cp = true
            ∧ ¬ (has_figures_in_start cp = true ∧ Figure.OnField 0 ∈ cp.figures)))) := by
  have hstep : step (GameState.StartTurn attempt) g (GameEvent.Request GameRequest.Roll) value
      = step_roll g cp attempt value := by
    unfold step
    rw [hcp]
  rw [hstep] at hnext ⊢
  cases hfind : find_index (jam_predicate (has_figures_in_start cp)) cp.figures with
  | some j =>
      have : (step_roll g cp attempt value).next =
          some (if value = 6 then GameState.StartTurn 0 else GameState.MoveToNextTurn) := by
        simp only [step_roll, hfind]
      rw [this] at hnext
      by_cases h6 : value = 6
      · rw [if_pos h6] at hnext
        simp at hnext
      · rw [if_neg h6] at hnext
        simp at hnext
  | none =>
      by_cases h6 : value = 6
      · cases hinstart : find_index is_instart cp.figures with
        | some idx =>
            have : (step_roll g cp attempt value).next = some (GameState.StartTurn 0) := by
              simp only [step_roll, hfind, hinstart]
              rw [if_pos h6]
            rw [this] at hnext
            simp at hnext
        | none =>
            have hstart_false : has_figures_in_start cp = false := by
              refine any_eq_false_of_all ?_
              exact (find_index_none_iff _ _).mp hinstart
            have hjam_false : cp.figures.any
                (jam_predicate (has_figures_in_start cp)) = false := by
              refine any_eq_false_of_all ?_
              intro f hf
              cases f <;> simp [jam_predicate, hstart_false]
            have hout : step_roll g cp attempt value =
                ⟨g, some (GameState.Rolled value),
                 [(g.next_player, GameResponse.Turn),
                  (g.next_player, GameResponse.Rolled value
                    (has_figures_on_field cp
                      && !(decide (value = 6) && has_figures_in_start cp)
                      && !(cp.figures.any
                            (jam_predicate (has_figures_in_start cp)))))]⟩ := by
              simp only [step_roll, hfind, hinstart]
              rw [if_pos h6]
            rw [hout] at hnext ⊢
            have hv : v = value := by
              simp at hnext
              omega
            have hcm : (has_figures_on_field cp
                && !(decide (value = 6) && has_figures_in_start cp)
                && !(cp.figures.any (jam_predicate (has_figures_in_start cp)))) =
                has_figures_on_field cp := by
              rw [hjam_false, hstart_false]
              simp
            have hiff : (has_figures_on_field cp = true ↔
                (has_figures_on_field cp = true
                  ∧ ¬ (has_figures_in_start cp = true ∧ Figure.OnField 0 ∈ cp.figures))) := by
              rw [hstart_false]
              simp
            refine ⟨hv, ⟨has_figures_on_field cp, ?_, hiff⟩, ?_⟩
            · rw [hcm]
              simp
            · intro i v2 cm hmem
              simp only [List.mem_cons, List.not_mem_nil, or_false] at hmem
              rcases hmem with h1 | h2
              · exact absurd (congrArg Prod.snd h1) (by simp)
              · have hi : i = g.next_player := congrArg Prod.fst h2
                have hr := congrArg Prod.snd h2
                simp only at hr
                rw [hcm] at hr
                injection hr with hr1 hr2
                exact ⟨hi, hr1, by rw [hr2]; exact hiff⟩
      · cases hfof : has_figures_on_field cp with
        | false =>
            by_cases hat : attempt ≥ 2
            · have : (step_roll g cp attempt value).next =
                  some GameState.MoveToNextTurn := by
                simp only [step_roll, hfind]
                rw [if_neg h6, if_neg (by rw [hfof]; exact Bool.false_ne_true), if_pos hat]
              rw [this] at hnext
              simp at hnext
            · have : (step_roll g cp attempt value).next =
                  some (GameState.StartTurn (attempt + 1)) := by
                simp only [step_roll, hfind]
                rw [if_neg h6, if_neg (by rw [hfof]; exact Bool.false_ne_true), if_neg hat]
              rw [this] at hnext
              simp at hnext
        | true =>
            have hout : step_roll g cp attempt value =
                ⟨g, some (GameState.Rolled value),
                 [(g.next_player, GameResponse.Turn),
                  (g.next_player, GameResponse.Rolled value
                    (has_figures_on_field cp
                      && !(decide (value = 6) && has_figures_in_start cp)
                      && !(cp.figures.any
                            (jam_predicate (has_figures_in_start cp)))))]⟩ := by
              simp only [step_roll, hfind]
              rw [if_neg h6, if_pos hfof]
            rw [hout] at hnext ⊢
            have hv : v = value := by
              simp at hnext
              omega
            have hd6 : decide (value = 6) = false := by
              simp [h6]
            have hcm : (has_figures_on_field cp
                && !(decide (value = 6) && has_figures_in_start cp)
                && !(cp.figures.any (jam_predicate (has_figures_in_start cp)))) =
                !(cp.figures.any (jam_predicate (has_figures_in_start cp))) := by
              rw [hfof, hd6]
              simp
            have hiff : ((!(cp.figures.any (jam_predicate (has_figures_in_start cp)))) = true ↔
                (true = true
                  ∧ ¬ (has_figures_in_start cp = true ∧ Figure.OnField 0 ∈ cp.figures))) := by
              constructor
              · intro h
                refine ⟨rfl, fun hc => ?_⟩
                rw [Bool.not_eq_true'] at h
                rw [(any_jam_iff _ _).mpr hc] at h
                cases h
              · rintro ⟨-, hc⟩
                rw [Bool.not_eq_true']
                cases hany : cp.figures.any (jam_predicate (has_figures_in_start cp)) with
                | false => rfl
                | true => exact absurd ((any_jam_iff _ _).mp hany) hc
            refine ⟨hv, ⟨_, ?_, hiff⟩, ?_⟩
            · rw [hcm]
              simp
            · intro i v2 cm hmem
              simp only [List.mem_cons, List.not_mem_nil, or_false] at hmem
              rcases hmem with h1 | h2
              · exact absurd (congrArg Prod.snd h1) (by simp)
              · have hi : i = g.next_player := congrArg Prod.fst h2
                have hr := congrArg Prod.snd h2
                simp only at hr
                rw [hcm] at hr
                injection hr with hr1 hr2
                exact ⟨hi, hr1, by rw [hr2]; exact hiff⟩

/-- C6 witness: a player with all four figures on the track rolls a 3; the
machine answers `Rolled 3` with `can_move = true` and pends the move. -/
theorem c6_rolled_can_move_witness :
    (g_pending.next_player, GameResponse.Rolled 3 true)
      ∈ (step (GameState.StartTurn 0) g_pending
          (GameEvent.Request GameRequest.Roll) 3).sent := by
  obtain ⟨-, ⟨cm, hmem, hiff⟩, -⟩ :=
    c6_rolled_can_move g_pending 0 3 3 pC (by decide) (by decide)
  have hcm : cm = true := hiff.mpr ⟨by decide, by decide⟩
  rwa [hcm] at hmem

/-! ## C7: completion is never recorded in the ranking -/

/-- C7, the code at the claimed failing input: player 0 completes during its
`Rolled 4` / `Move 3` step (all four figures home, flag set by the
`check_done` call inside the move handler), hence the following
`MoveToNextTurn` step sees `is_done()` already true, never pushes the index
to `ranking` and never broadcasts `PlayerDone`; when every player is
completed the `GameDone` broadcast carries an empty ranking instead of the
finish order. The claim (and spec §4.4 AdvanceTurn) requires the index to be
appended and a player-completed notice broadcast. -/
theorem c7_ranking_push_unreachable :
    ((step (GameState.Rolled 4) g_finish (GameEvent.Request (GameRequest.Move 3)) 0).next
        = some GameState.MoveToNextTurn)
    ∧ g_finish_after.players.get? 0 = some p_all_home_done
    ∧ g_finish_after.ranking = []
    ∧ (step GameState.MoveToNextTurn g_finish_after
        (GameEvent.Request GameRequest.Roll) 0).game.ranking = []
    ∧ (step GameState.MoveToNextTurn g_finish_after
        (GameEvent.Request GameRequest.Roll) 0).sent = []
    ∧ (step GameState.MoveToNextTurn g_finish_after
        (GameEvent.Request GameRequest.Roll) 0).next = some (GameState.StartTurn 0)
    ∧ (step GameState.MoveToNextTurn g_last_after
        (GameEvent.Request GameRequest.Roll) 0).next = some GameState.Done
    ∧ (step GameState.MoveToNextTurn g_last_after
        (GameEvent.Request GameRequest.Roll) 0).game.ranking = []
    ∧ (step GameState.MoveToNextTurn g_last_after
        (GameEvent.Request GameRequest.Roll) 0).sent
        = [(0, GameResponse.GameDone []), (1, GameResponse.GameDone [])]
    ∧ (step GameState.Done g_last_final (GameEvent.Request GameRequest.Roll) 0).next = none := by
  decide

/-! ## C8: the ranking invariant -/

/-- C8: in every game configuration reachable by repeated application of
`step` from a freshly created game, the ranking has no duplicate player index
and every ranked index belongs to a player whose completed flag is set;
moreover any further step either leaves the ranking unchanged or grows it by
appending exactly the active player's index at the end, and in that case the
appended player's completed flag is set in the resulting state. -/
theorem c8_ranking_invariant (g : Game) (s : GameState) (h : Reachable g s) :
    g.ranking.Nodup
    ∧ (∀ i ∈ g.ranking, ∃ p, g.players.get? i = some p ∧ p.done = true)
    ∧ (∀ ev roll, (step s g ev roll).game.ranking = g.ranking
        ∨ ((step s g ev roll).game.ranking = g.ranking ++ [g.next_player]
          ∧ ∃ q, (step s g ev roll).game.players.get? g.next_player = some q
              ∧ q.done = true)) := by
  have hinv := reachable_RankingInv g s h
  refine ⟨hinv.1, hinv.2, ?_⟩
  intro ev roll
  rcases step_effect s g ev roll with ⟨hrank, -⟩ | ⟨hrank, cp, hcp, -, hpl, hfdone⟩
  · exact Or.inl hrank
  · right
    have hlt : g.next_player < g.players.length := (List.get?_eq_some.mp hcp).1
    refine ⟨hrank, (check_done cp).fst, ?_, hfdone⟩
    rw [hpl]
    show (g.players.set g.next_player ((check_done cp).fst)).get? g.next_player
      = some ((check_done cp).fst)
    rw [List.get?_eq_getElem?, List.getElem?_set_self hlt]

/-- C8 witness: the invariant instantiated at a freshly created game in its
initial machine state. -/
theorem c8_ranking_invariant_witness : (new_game [("a", 0, 0, 0)] 0).ranking.Nodup :=
  (c8_ranking_invariant (new_game [("a", 0, 0, 0)] 0) (GameState.StartTurn 0)
    (Reachable.init [("a", 0, 0, 0)] 0)).1

/-! ## C9: reconnection while suspended -/

/-- C9: in `WaitingForReconnect(suspended)`, a rejoin event whose key matches
a player's rejoin code replaces exactly that player's channel halves (figures,
completed flags, ranking and active cursor untouched) and resumes the
suspended state; a key matching no player leaves the machine waiting and the
game unchanged. -/
theorem c9_reconnect (g : Game) (prev : GameState) (key tx rx roll : Nat)
    (cp : GamePlayer) (hcp : g.players.get? g.next_player = some cp) :
    (∀ i p, find_index (fun q => decide (q.rejoin_code = key)) g.players = some i →
        g.players.get? i = some p →
        step (GameState.WaitingForReconnect prev) g (GameEvent.Rejoin key tx rx) roll =
          ⟨set_player g i { p with send := tx, recv := rx },
           some prev,
           send_state (set_player g i { p with send := tx, recv := rx })
             ++ indicate_players (set_player g i { p with send := tx, recv := rx })⟩
        ∧ (set_player g i { p with send := tx, recv := rx }).ranking = g.ranking
        ∧ (set_player g i { p with send := tx, recv := rx }).next_player = g.next_player
        ∧ (∀ j q, g.players.get? j = some q →
            ∃ q2, (set_player g i { p with send := tx, recv := rx }).players.get? j = some q2
              ∧ q2.figures = q.figures ∧ q2.done = q.done ∧ q2.name = q.name
              ∧ q2.rejoin_code = q.rejoin_code
              ∧ (j ≠ i → q2 = q) ∧ (j = i → q2.send = tx ∧ q2.recv = rx)))
    ∧ ((∀ p ∈ g.players, p.rejoin_code ≠ key) →
        step (GameState.WaitingForReconnect prev) g (GameEvent.Rejoin key tx rx) roll =
          ⟨g, some (GameState.WaitingForReconnect prev), []⟩) := by
  constructor
  · intro i p hfind hp
    have hstep : step (GameState.WaitingForReconnect prev) g (GameEvent.Rejoin key tx rx) roll =
        step_reconnect g prev key tx rx := by
      unfold step
      rw [hcp]
    have hrec : step_reconnect g prev key tx rx =
        ⟨set_player g i { p with send := tx, recv := rx },
         some prev,
         send_state (set_player g i { p with send := tx, recv := rx })
           ++ indicate_players (set_player g i { p with send := tx, recv := rx })⟩ := by
      unfold step_reconnect
      simp only [hfind, hp]
    refine ⟨hstep.trans hrec, rfl, rfl, ?_⟩
    intro j q hq
    by_cases hj : j = i
    · subst hj
      refine ⟨{ p with send := tx, recv := rx }, ?_, ?_⟩
      · show (g.players.set j { p with send := tx, recv := rx }).get? j = _
        have hlt : j < g.players.length := by
          rcases List.get?_eq_some.mp hq with ⟨hlt, _⟩
          exact hlt
        rw [List.get?_eq_getElem?, List.getElem?_set_self hlt]
      · rw [hq] at hp
        injection hp with hp2
        subst hp2
        exact ⟨rfl, rfl, rfl, rfl, fun hne => absurd rfl hne, fun _ => ⟨rfl, rfl⟩⟩
    · refine ⟨q, ?_, rfl, rfl, rfl, rfl, fun _ => rfl, fun he => absurd he hj⟩
      show (g.players.set i { p with send := tx, recv := rx }).get? j = _
      rw [List.get?_eq_getElem?, List.getElem?_set_ne (fun he => hj he.symm),
        ← List.get?_eq_getElem?]
      exact hq
  · intro hnone
    have hfind : find_index (fun q => decide (q.rejoin_code = key)) g.players = none := by
      rw [find_index_none_iff]
      intro q hq
      simp [hnone q hq]
    have hstep : step (GameState.WaitingForReconnect prev) g (GameEvent.Rejoin key tx rx) roll =
        step_reconnect g prev key tx rx := by
      unfold step
      rw [hcp]
    rw [hstep]
    unfold step_reconnect
    simp only [hfind]

/-- C9 witness: in the two-player sample, a rejoin with player 1's code
installs the new channel ids 7/8 and resumes `StartTurn 0`; a rejoin with the
unknown code 99 is ignored. -/
theorem c9_reconnect_witness :
    step (GameState.WaitingForReconnect (GameState.StartTurn 0)) g_capture
        (GameEvent.Rejoin 1 7 8) 0 =
      ⟨set_player g_capture 1 { pB with send := 7, recv := 8 },
       some (GameState.StartTurn 0),
       send_state (set_player g_capture 1 { pB with send := 7, recv := 8 })
         ++ indicate_players (set_player g_capture 1 { pB with send := 7, recv := 8 })⟩
    ∧ step (GameState.WaitingForReconnect (GameState.StartTurn 0)) g_capture
        (GameEvent.Rejoin 99 7 8) 0 =
      ⟨g_capture, some (GameState.WaitingForReconnect (GameState.StartTurn 0)), []⟩ := by
  constructor
  · exact ((c9_reconnect g_capture (GameState.StartTurn 0) 1 7 8 0 pA (by decide)).1
      1 pB (by decide) (by decide)).1
  · refine (c9_reconnect g_capture (GameState.StartTurn 0) 99 7 8 0 pA (by decide)).2 ?_
    intro p hp
    have : p = pA ∨ p = pB := by
      simpa [g_capture] using hp
    rcases this with rfl | rfl <;> decide

/-! ## C4: check_done fires on every all-home call, not exactly once -/

/-- C4, counterexample: a player that is already marked completed (`done =
true`, all four figures at home) gets `true` from `check_done` again — the
claim says every call after completion returns `false`. -/
theorem c4_counterexample :
    p_all_home_done.done = true ∧ (check_done p_all_home_done).snd = true := by
  decide

/-- C4 (amended): `check_done` returns `true` and sets the completed flag on
*every* call at which all figures are at home — also when the player is
already completed — and returns `false` as a no-op exactly when some figure
is not at home; the once-only behavior is enforced by the caller's
`!is_done()` guard, not by `check_done` itself. -/
theorem c4_check_done_spec (p : GamePlayer) :
    ((∀ f ∈ p.figures, ∃ pos, f = Figure.InHouse pos) →
        check_done p = ({ p with done := true }, true))
    ∧ ((∃ f ∈ p.figures, ∀ pos, f ≠ Figure.InHouse pos) →
        check_done p = (p, false)) := by
  constructor
  · intro h
    have hall : p.figures.all
        (fun f => match f with | Figure.InHouse _ => true | _ => false) = true := by
      rw [List.all_eq_true]
      intro f hfm
      rcases h f hfm with ⟨pos, rfl⟩
      rfl
    rw [check_done, if_pos hall]
  · rintro ⟨f, hfm, hf⟩
    have hne : ¬ (p.figures.all
        (fun f => match f with | Figure.InHouse _ => true | _ => false) = true) := by
      intro hall
      have hft := List.all_eq_true.mp hall f hfm
      cases f with
      | InHouse pos => exact hf pos rfl
      | InStart => cases hft
      | OnField m => cases hft
    rw [check_done, if_neg hne]

/-- C4 witness: the amended `check_done` behavior at a fully-home player and
at a fresh player. -/
theorem c4_check_done_spec_witness :
    check_done p_all_home = (p_all_home_done, true)
    ∧ check_done (new_player "b" 0 0 0) = (new_player "b" 0 0 0, false) := by
  constructor
  · have h := (c4_check_done_spec p_all_home).1 (by
      intro f hf
      simp only [p_all_home, List.mem_cons, List.not_mem_nil, or_false] at hf
      rcases hf with rfl | rfl | rfl | rfl
      exacts [⟨0, rfl⟩, ⟨1, rfl⟩, ⟨2, rfl⟩, ⟨3, rfl⟩])
    rw [h]
    decide
  · exact (c4_check_done_spec (new_player "b" 0 0 0)).2
      ⟨Figure.InStart, by decide, fun pos h => by cases h⟩

/-! ## C10: out-of-range figure index -/

/-- C10: for a figure index outside the 4-figure array, `move_figure` returns
the failure signal and the player — figures and completed flag included — is
left unchanged. -/
theorem c10_move_figure_out_of_range (p : GamePlayer) (index amount : Nat)
    (hlen : p.figures.length = 4) (h : 4 ≤ index) :
    move_figure p index amount = (p, none) := by
  have hnone : p.figures[index]? = none := by
    rw [← List.get?_eq_getElem?, List.get?_eq_none]
    omega
  simp [move_figure, hnone]

/-- C10 witness: moving figure 4 of a fresh player is a no-op failure. -/
theorem c10_move_figure_out_of_range_witness :
    move_figure (new_player "a" 0 0 0) 4 6 = (new_player "a" 0 0 0, none) :=
  c10_move_figure_out_of_range (new_player "a" 0 0 0) 4 6 (by decide) (by decide)

end Madn
